import Mathlib

/-!
Verification development for the chronologicon-engine backend.

The repository analyses collections of time-interval records (events) stored in
a HistoricalEvents table: temporal gaps between chronologically adjacent events
(EventCollection.findTemporalGaps in src/models/Event.js and the temporal-gaps
route in src/routes/insights.js), pairwise overlaps (the overlapping-events
route), breadth-first shortest paths over a temporal precedence graph
(findShortestPath in src/routes/insights.js) and over the parent/child
hierarchy (findShortestPath in src/routes/influenceSpreader.js), and a
depth-decayed influence score over the hierarchy
(EventCollection.calculateEventInfluence, consumed by
src/controllers/influenceSpreader.js).

This file embeds those routines shallowly: timestamps are absolute instants in
integer milliseconds (JavaScript Date arithmetic and SQL EXTRACT(EPOCH ...)
arithmetic both act on the underlying instant), event identifiers are opaque
and modelled as natural numbers, the database table is a list of event rows,
and the asynchronous database calls are modelled as pure lookups on that list.
Random UUID generation (uuid_generate_v4) is modelled as drawing consecutive
fresh identifiers from a supply whose starting point is an explicit parameter.
-/

namespace Chronologicon

/-- An event row of the HistoricalEvents table, as wrapped by the Event model
class of src/models/Event.js: identifier, name, start and end instants in
milliseconds, and an optional parent event identifier. The schema declares
event_id as the primary key and checks end_date > start_date. -/
structure Event where
  eventId : Nat
  eventName : String
  startDate : Int
  endDate : Int
  parentId : Option Nat
deriving DecidableEq, Repr

/-- Event.findById / EventCollection.getEvent: the row whose event_id matches,
if any (event_id is the primary key, so at most one row matches). -/
def getEvent (db : List Event) (id : Nat) : Option Event :=
  db.find? (fun e => e.eventId == id)

/-- ORDER BY start_date ASC, as used by getAllEvents and by the ordered_events
subquery of findTemporalGaps. -/
def sortByStart (db : List Event) : List Event :=
  List.insertionSort (fun a b => a.startDate ≤ b.startDate) db

/-- JavaScript Math.round((ms) / (1000 * 60)): round half up to the nearest
minute, expressed over the integers as the floor of (2 ms + 60000) / 120000. -/
def roundMinutes (ms : Int) : Int :=
  (2 * ms + 60000).fdiv 120000

/-- Severity buckets used by the gap analysis. -/
inductive Severity where
  | low
  | medium
  | high
  | critical
deriving DecidableEq, Repr

/-- The severity CASE expression of findTemporalGaps (src/models/Event.js),
stated on the gap duration in minutes: the SQL computes
EXTRACT(EPOCH FROM (next_start - prev_end)) / 60, an exact rational number of
minutes, and compares it against 30, 120 and 480. -/
def severity (g : ℚ) : Severity :=
  if g < 30 then .low
  else if g < 120 then .medium
  else if g < 480 then .high
  else .critical

/-- The same CASE expression evaluated on the duration in milliseconds: the
comparisons ms / 60000 < 30, < 120, < 480 are scaled by the positive factor
60000 to the integer comparisons ms < 1800000, < 7200000, < 28800000. The
lemma severityMs_eq_severity proves this agrees with severity exactly. -/
def severityMs (ms : Int) : Severity :=
  if ms < 1800000 then .low
  else if ms < 7200000 then .medium
  else if ms < 28800000 then .high
  else .critical

/-- One row of the SELECT of findTemporalGaps (src/models/Event.js) before the
JavaScript post-processing. The query derives ordered_events (with LAG/LEAD
columns that the outer SELECT never references, so they are not modelled) and
joins it with itself ON prev_event.event_id = next_event.event_id, so each row
pairs an event with itself: gapStart is prev_event.end_date and gapEnd is
next_event.start_date of the same event. -/
structure RawGap where
  beforeId : Nat
  gapStart : Int
  gapEnd : Int
deriving DecidableEq, Repr

/-- The value EXTRACT(EPOCH FROM (gap_end - gap_start)), in milliseconds. -/
def RawGap.diffMs (r : RawGap) : Int := r.gapEnd - r.gapStart

/-- Row set of the findTemporalGaps query: self-join of the ordered events on
event_id, keeping rows whose gap in minutes is at least minGapMinutes. The
filter (next_start - prev_end) / 60000 >= minGapMinutes is scaled by 60000 to
an integer comparison; the IS NOT NULL conjuncts hold trivially because
start_date and end_date are NOT NULL columns. -/
def rawGapRows (db : List Event) (minGapMinutes : Int) : List RawGap :=
  (sortByStart db).flatMap (fun p =>
    ((sortByStart db).filter (fun n =>
        p.eventId == n.eventId &&
          decide (minGapMinutes * 60000 ≤ n.startDate - p.endDate))).map
      (fun n => ⟨p.eventId, p.endDate, n.startDate⟩))

/-- uuid_generate_v4() as gap_id: each selected row receives a fresh identifier
from the supply, consecutively from the given starting seed. Two successive
calls of the operation draw from disjoint parts of the supply. -/
def assignGapIds (seed : Nat) (l : List RawGap) : List (Nat × RawGap) :=
  l.enum.map (fun p => (seed + p.1, p.2))

/-- ORDER BY gap_minutes DESC. -/
def sortGapRowsDesc (l : List (Nat × RawGap)) : List (Nat × RawGap) :=
  List.insertionSort (fun a b => b.2.diffMs ≤ a.2.diffMs) l

/-- The same descending sort on rows without their identifiers. -/
def sortRawDesc (l : List RawGap) : List RawGap :=
  List.insertionSort (fun a b => b.diffMs ≤ a.diffMs) l

/-- A gap record as assembled by the JavaScript loop of findTemporalGaps. -/
structure Gap where
  gapId : Nat
  beforeEvent : Option Event
  afterEvent : Option Event
  gapMinutes : Int
  gapStart : Int
  gapEnd : Int
  severity : Severity
deriving DecidableEq, Repr

/-- The assembly loop of findTemporalGaps (src/models/Event.js): beforeEvent is
Event.findById(gap.before_event_id), and afterEvent is likewise
Event.findById(gap.before_event_id) - the source fetches the same identifier
twice and marks the second lookup with a fix-me comment. gapMinutes is
parseInt applied to the fractional minute count, i.e. truncation toward zero,
which on milliseconds is Int.tdiv by 60000. -/
def renderGap (db : List Event) (pr : Nat × RawGap) : Gap :=
  { gapId := pr.1
    beforeEvent := getEvent db pr.2.beforeId
    afterEvent := getEvent db pr.2.beforeId
    gapMinutes := pr.2.diffMs.tdiv 60000
    gapStart := pr.2.gapStart
    gapEnd := pr.2.gapEnd
    severity := severityMs pr.2.diffMs }

/-- EventCollection.findTemporalGaps (src/models/Event.js): run the query,
sort by gap minutes descending, and assemble the gap records. The seed makes
the fresh-uuid supply explicit. -/
def findTemporalGaps (seed : Nat) (db : List Event) (minGapMinutes : Int) : List Gap :=
  (sortGapRowsDesc (assignGapIds seed (rawGapRows db minGapMinutes))).map (renderGap db)

/-- A gap record with its randomly generated identifier erased. -/
structure GapView where
  beforeEvent : Option Event
  afterEvent : Option Event
  gapMinutes : Int
  gapStart : Int
  gapEnd : Int
  severity : Severity
deriving DecidableEq, Repr

/-- Forget the gapId field of a gap record. -/
def Gap.view (g : Gap) : GapView :=
  ⟨g.beforeEvent, g.afterEvent, g.gapMinutes, g.gapStart, g.gapEnd, g.severity⟩

/-- The identifier-free part of the gap assembly. -/
def renderGapView (db : List Event) (r : RawGap) : GapView :=
  ⟨getEvent db r.beforeId, getEvent db r.beforeId, r.diffMs.tdiv 60000,
    r.gapStart, r.gapEnd, severityMs r.diffMs⟩

/-- The in-window event filter of the temporal-gaps route of
src/routes/insights.js (the first, and therefore dispatched, registration of
GET /api/insights/temporal-gaps): it keeps the events with
eventStart >= start and eventEnd <= end. -/
def gapWindowFilter (events : List Event) (windowStart windowEnd : Int) : List Event :=
  events.filter (fun ev =>
    decide (windowStart ≤ ev.startDate) && decide (ev.endDate ≤ windowEnd))

/-- A single valid event lasting one hour, used to exercise findTemporalGaps. -/
def evSolo : Event := ⟨1, "Solo", 0, 3600000, none⟩

/-- First event of a truly gapped pair: one hour starting at the epoch. -/
def evGapA : Event := ⟨1, "A", 0, 3600000, none⟩

/-- Second event of a truly gapped pair: one hour starting two hours after the
epoch, so one full hour after evGapA ends. -/
def evGapB : Event := ⟨2, "B", 7200000, 10800000, none⟩

/-- An event from 09:00 to 10:30 that partially intersects the window from
10:00 to 12:00 without being contained in it. -/
def evStraddle : Event := ⟨1, "Straddle", 32400000, 37800000, none⟩

/-- Helper eventsOverlap of src/routes/insights.js: strict interval
intersection, start1 < end2 and end1 > start2. -/
def eventsOverlap (e1 e2 : Event) : Bool :=
  decide (e1.startDate < e2.endDate) && decide (e1.endDate > e2.startDate)

/-- Helper calculateOverlapDuration of src/routes/insights.js:
Math.round of (min(end1, end2) - max(start1, start2)) in minutes. -/
def calculateOverlapDuration (e1 e2 : Event) : Int :=
  roundMinutes (min e1.endDate e2.endDate - max e1.startDate e2.startDate)

/-- The index pairs i < j visited by the all-pairs scan of the
overlapping-events route: every element paired with every later element. -/
def pairsUpper {α : Type} : List α → List (α × α)
  | [] => []
  | x :: xs => (xs.map (fun y => (x, y))) ++ pairsUpper xs

/-- One reported overlapping pair with its overlap duration in minutes. -/
structure OverlapPair where
  event1 : Event
  event2 : Event
  overlapDurationMinutes : Int
deriving DecidableEq, Repr

/-- GET /api/insights/overlapping-events (src/routes/insights.js): filter the
events intersecting the window (eventStart < end and eventEnd > start), then
scan the index pairs i < j of the filtered list and report every pair that
strictly overlaps, annotated with its overlap duration. -/
def overlappingEvents (events : List Event) (windowStart windowEnd : Int) :
    List OverlapPair :=
  ((pairsUpper (events.filter (fun ev =>
      decide (ev.startDate < windowEnd) && decide (ev.endDate > windowStart)))).filter
    (fun p => eventsOverlap p.1 p.2)).map
    (fun p => ⟨p.1, p.2, calculateOverlapDuration p.1 p.2⟩)

/-- Order-insensitive representation of a pair of event identifiers. -/
def unorderedIds (a b : Nat) : Nat × Nat :=
  if a ≤ b then (a, b) else (b, a)

/-- A rendered event on a precedence path: the event annotated with its own
duration Math.round of (end - start) in minutes, as assembled by
findShortestPath of src/routes/insights.js. -/
structure PathEvent where
  eventId : Nat
  eventName : String
  startDate : Int
  endDate : Int
  durationMinutes : Int
deriving DecidableEq, Repr

/-- Rendering of one event on the found path. -/
def renderPathEvent (e : Event) : PathEvent :=
  ⟨e.eventId, e.eventName, e.startDate, e.endDate,
    roundMinutes (e.endDate - e.startDate)⟩

/-- Adjacency of the temporal precedence graph built by findShortestPath of
src/routes/insights.js: from the event with the given identifier there is an
edge to every other event whose start is at or after its end
(event1End <= event2Start, identifiers distinct), in snapshot order. -/
def precNeighbors (events : List Event) (id : Nat) : List Nat :=
  match events.find? (fun e => e.eventId == id) with
  | none => []
  | some e1 => (events.filter (fun e2 =>
      (!(e1.eventId == e2.eventId)) && decide (e1.endDate ≤ e2.startDate))).map
      (fun e2 => e2.eventId)

/-- A queue entry of the breadth-first searches: the current event id and the
path of ids that reached it. -/
structure BfsEntry where
  eventId : Nat
  path : List Nat
deriving DecidableEq, Repr

/-- Push the unvisited neighbors onto the queue, marking each one visited as it
is pushed (the source extends the visited set at push time). -/
def pushPrec (path : List Nat) (ns : List Nat)
    (qv : List BfsEntry × List Nat) : List BfsEntry × List Nat :=
  ns.foldl (fun qv n =>
    if n ∈ qv.2 then qv else (qv.1 ++ [⟨n, path ++ [n]⟩], qv.2 ++ [n])) qv

/-- The BFS loop of findShortestPath (src/routes/insights.js), with explicit
fuel, one unit per loop iteration: none means the fuel ran out (the caller
supplies enough), some [] is the no-path result returned when the queue
empties, and some path is the path of the first dequeued entry reaching the
target. -/
def bfsPrec (events : List Event) (target : Nat) :
    Nat → List BfsEntry → List Nat → Option (List Nat)
  | 0, _, _ => none
  | _ + 1, [], _ => some []
  | fuel + 1, entry :: rest, visited =>
    if entry.eventId == target then some entry.path
    else
      let qv := pushPrec entry.path (precNeighbors events entry.eventId)
        (rest, visited)
      bfsPrec events target fuel qv.1 qv.2

/-- findShortestPath of src/routes/insights.js: BFS from the source over the
precedence graph, the queue seeded with the source and the source marked
visited. Every enqueued id is distinct (marked visited at push time) and drawn
from the snapshot ids plus the source, so events.length + 2 units of fuel
cover every dequeue plus the final empty-queue check. The found path of ids is
rendered to events, skipping ids without a matching event. -/
def findShortestPathPrec (events : List Event) (src tgt : Nat) :
    Option (List PathEvent) :=
  (bfsPrec events tgt (events.length + 2) [⟨src, [src]⟩] [src]).map
    (fun ids => ids.filterMap (fun id =>
      (events.find? (fun e => e.eventId == id)).map renderPathEvent))

/-- The event-influence route wrapper around findShortestPath
(src/routes/insights.js): the path together with totalDurationMinutes, the
reduce-sum of the per-event durations (0 for the empty no-path result). -/
def shortestPrecedencePath (events : List Event) (src tgt : Nat) :
    Option (List PathEvent × Int) :=
  (findShortestPathPrec events src tgt).map
    (fun p => (p, p.foldl (fun t e => t + e.durationMinutes) 0))

/-- Event E1 of the shortest-path example: 09:00 to 10:00. -/
def evE1 : Event := ⟨1, "E1", 32400000, 36000000, none⟩

/-- Event E2 of the shortest-path example: 10:00 to 11:00. -/
def evE2 : Event := ⟨2, "E2", 36000000, 39600000, none⟩

/-- Event E3 of the shortest-path example: 11:30 to 12:00. -/
def evE3 : Event := ⟨3, "E3", 41400000, 43200000, none⟩

/-- Event E4 of the shortest-path example: 09:00 to 09:30. -/
def evE4 : Event := ⟨4, "E4", 32400000, 34200000, none⟩

/-- The snapshot of the shortest-precedence-path example, in the order
returned by getAllEvents (ascending start date). -/
def pathExample : List Event := [evE1, evE4, evE2, evE3]

/-- A rendered event on a hierarchy path, as assembled by findShortestPath of
src/routes/influenceSpreader.js: id, name and duration in minutes. -/
structure HPathEvent where
  eventId : Nat
  eventName : String
  durationMinutes : Int
deriving DecidableEq, Repr

/-- A queue entry of the hierarchy BFS: the current event id and the rendered
path that led to it. -/
structure HQEntry where
  eventId : Nat
  path : List HPathEvent
deriving DecidableEq, Repr

/-- EventCollection.getChildEvents: the events whose parent id equals the
argument, ordered by start date. -/
def getChildEvents (db : List Event) (pid : Nat) : List Event :=
  List.insertionSort (fun a b => a.startDate ≤ b.startDate)
    (db.filter (fun e => e.parentId == some pid))

/-- Rendering of one event on a hierarchy path. -/
def renderHPathEvent (e : Event) : HPathEvent :=
  ⟨e.eventId, e.eventName, roundMinutes (e.endDate - e.startDate)⟩

/-- The enqueue phase of one hierarchy BFS iteration for the dequeued id with
declared parent pId: append the not-yet-visited children of id (each carrying
the current path), then the declared parent if it resolves to an event and is
not yet visited. -/
def hierChildQueue (db : List Event) (id : Nat) (cur : List HPathEvent)
    (rest : List HQEntry) (visited2 : List Nat) : List HQEntry :=
  rest ++
    ((getChildEvents db id).filter (fun c => decide (c.eventId ∉ visited2))).map
      (fun c => ⟨c.eventId, cur⟩)

/-- After the children, the declared parent is enqueued if it resolves to an
event and is not yet visited. -/
def hierPush (db : List Event) (id : Nat) (pId : Option Nat)
    (cur : List HPathEvent) (rest : List HQEntry) (visited2 : List Nat) :
    List HQEntry :=
  match pId with
  | none => hierChildQueue db id cur rest visited2
  | some pid =>
    match getEvent db pid with
    | none => hierChildQueue db id cur rest visited2
    | some par =>
      if par.eventId ∈ visited2 then hierChildQueue db id cur rest visited2
      else hierChildQueue db id cur rest visited2 ++ [⟨par.eventId, cur⟩]

/-- The BFS loop of findShortestPath in src/routes/influenceSpreader.js, with
explicit fuel, one unit per loop iteration. Each iteration dequeues an entry;
an already visited id is skipped, otherwise the id is marked visited, its
event is looked up (ids without an event are skipped), the rendered event is
appended to the path, the target check is made, and the unvisited children
followed by the unvisited declared parent are enqueued. none means the fuel
ran out; some [] is the no-path result returned when the queue empties. -/
def bfsHier (db : List Event) (target : Nat) :
    Nat → List HQEntry → List Nat → Option (List HPathEvent)
  | 0, _, _ => none
  | _ + 1, [], _ => some []
  | fuel + 1, entry :: rest, visited =>
    if entry.eventId ∈ visited then bfsHier db target fuel rest visited
    else
      match getEvent db entry.eventId with
      | none => bfsHier db target fuel rest (visited ++ [entry.eventId])
      | some ev =>
        if entry.eventId = target then some (entry.path ++ [renderHPathEvent ev])
        else
          bfsHier db target fuel
            (hierPush db entry.eventId ev.parentId
              (entry.path ++ [renderHPathEvent ev]) rest
              (visited ++ [entry.eventId]))
            (visited ++ [entry.eventId])

/-- The number of distinct snapshot ids not yet visited. -/
def unvisitedCount (db : List Event) (visited : List Nat) : Nat :=
  (((db.map Event.eventId).dedup).filter (fun i => decide (i ∉ visited))).length

/-- Fuel bound for the hierarchy BFS: every iteration either shrinks the queue
without visiting anything new, or visits a fresh snapshot id and enqueues at
most db.length + 1 entries, so this measure strictly decreases at every
iteration. -/
def hierMeasure (db : List Event) (q : List HQEntry) (visited : List Nat) : Nat :=
  q.length + unvisitedCount db visited * (db.length + 2)

/-- findShortestPath of src/routes/influenceSpreader.js: hierarchy BFS from
the source (initial path empty, nothing visited), run with provably
sufficient fuel. -/
def findShortestPathHier (db : List Event) (src tgt : Nat) :
    Option (List HPathEvent) :=
  bfsHier db tgt (hierMeasure db [⟨src, []⟩] [] + 1) [⟨src, []⟩] []

/-- One row of the event_hierarchy recursive CTE of calculateEventInfluence
(src/models/Event.js): the event, its depth, and the path of event ids used
by the cycle guard. -/
structure CteRow where
  event : Event
  depth : Nat
  path : List Nat
deriving DecidableEq, Repr

/-- The join condition of the recursive branch of the CTE: either
e.parent_event_id = eh.event_id, or e.event_id is among the ids of the events
whose parent is eh.event_id (both disjuncts carry the depth bound, which is
factored out in cteLevel), and e.event_id must not already lie on the path of
eh (the cycle guard). -/
def cteJoin (db : List Event) (eh : CteRow) (e : Event) : Bool :=
  (e.parentId == some eh.event.eventId ||
    db.any (fun e2 => e2.parentId == some eh.event.eventId &&
      e2.eventId == e.eventId)) &&
  decide (e.eventId ∉ eh.path)

/-- The working table of the recursive CTE after k steps: level 0 is the base
case (the source event at depth 0 with path containing only itself), and
level k + 1 joins the table rows against the previous level, bounded by
eh.depth < maxDepth. -/
def cteLevel (db : List Event) (src : Nat) (maxDepth : Nat) : Nat → List CteRow
  | 0 => (db.filter (fun e => e.eventId == src)).map (fun e => ⟨e, 0, [e.eventId]⟩)
  | k + 1 =>
    (cteLevel db src maxDepth k).flatMap (fun eh =>
      if eh.depth < maxDepth then
        (db.filter (cteJoin db eh)).map
          (fun e => ⟨e, eh.depth + 1, eh.path ++ [e.eventId]⟩)
      else [])

/-- All rows produced by the recursive CTE: the union of the levels. Rows at
level k have depth k, and the depth guard makes every level beyond maxDepth
empty, so levels 0 through maxDepth exhaust the fixpoint. -/
def cteRows (db : List Event) (src : Nat) (maxDepth : Nat) : List CteRow :=
  (List.range (maxDepth + 1)).flatMap (cteLevel db src maxDepth)

/-- ORDER BY depth, start_date of the outer SELECT. -/
def sortCteRows (l : List CteRow) : List CteRow :=
  List.insertionSort (fun a b =>
    a.depth < b.depth ∨ (a.depth = b.depth ∧ a.event.startDate ≤ b.event.startDate)) l

/-- JavaScript Map.set: replace the value of an existing key in place, or
append a new binding at the end. -/
def mapSet (m : List (Nat × ℚ)) (k : Nat) (v : ℚ) : List (Nat × ℚ) :=
  if m.any (fun p => p.1 == k) then
    m.map (fun p => if p.1 == k then (k, v) else p)
  else m ++ [(k, v)]

/-- The influenceMap accumulation loop of calculateEventInfluence: every
returned row contributes Math.pow(0.7, row.depth) under its event id. -/
def influenceEntries (rows : List CteRow) : List (Nat × ℚ) :=
  rows.foldl (fun m r => mapSet m r.event.eventId ((7/10 : ℚ) ^ r.depth)) []

/-- The totalInfluence accumulation loop: the running sum of
Math.pow(0.7, row.depth) over all returned rows. -/
def totalInfluence (rows : List CteRow) : ℚ :=
  rows.foldl (fun t r => t + (7/10 : ℚ) ^ r.depth) 0

/-- The result of calculateEventInfluence: the source event, the influence
map as the list of its bindings in insertion order, and the total. -/
structure InfluenceResult where
  sourceEvent : Event
  influenceMap : List (Nat × ℚ)
  totalInfluence : ℚ
deriving DecidableEq, Repr

/-- EventCollection.calculateEventInfluence (src/models/Event.js): look up the
source event (an unknown id throws), run the recursive CTE bounded by
maxDepth, order its rows by depth then start date, and fold them into the
influence map and the total. -/
def calculateEventInfluence (db : List Event) (eventId : Nat) (maxDepth : Nat) :
    Except String InfluenceResult :=
  match getEvent db eventId with
  | none => .error "Event not found"
  | some ev =>
    .ok ⟨ev, influenceEntries (sortCteRows (cteRows db eventId maxDepth)),
      totalInfluence (sortCteRows (cteRows db eventId maxDepth))⟩

/-- The union of the levels of the recursive CTE up to level k, used to reason
about the fixpoint by induction; cteRows db src maxDepth is cteUpTo at
k = maxDepth by definition. -/
def cteUpTo (db : List Event) (src maxD k : Nat) : List CteRow :=
  (List.range (k + 1)).flatMap (cteLevel db src maxD)

/-- A parent-and-child snapshot used to instantiate the influence theorems:
event 2 is the single child of event 1. -/
def influenceExampleDb : List Event :=
  [⟨1, "A", 0, 60000, none⟩, ⟨2, "B", 0, 60000, some 1⟩]

/-- The influence result computed on influenceExampleDb from source 1 with
maxDepth 3: the source at depth 0 with score 1 and its child at depth 1 with
score 7/10. -/
def influenceExampleResult : InfluenceResult :=
  ⟨⟨1, "A", 0, 60000, none⟩, [(1, 1), (2, 7/10)], 17/10⟩

/-- A JavaScript number as the percentage-change arithmetic of the influence
simulation would produce: a finite rational, or one of the non-finite values
that arithmetic on undefined or division by zero introduces. -/
inductive JSNum where
  | fin (q : ℚ)
  | posInf
  | negInf
  | nan
deriving DecidableEq, Repr

/-- One entry of the impactAnalysis array that simulateInfluenceChanges is
written to build. -/
structure ImpactRecord where
  eventId : Nat
  originalInfluence : ℚ
  newInfluence : ℚ
  change : ℚ
  changePercentage : JSNum
deriving DecidableEq, Repr

/-- The simulation block of the result that simulateInfluenceChanges is
written to return. -/
structure SimulationRecord where
  eventId : Nat
  originalInfluence : ℚ
  newInfluence : ℚ
  influenceChange : ℚ
  influenceChangePercentage : JSNum
deriving DecidableEq, Repr

/-- The full result shape that simulateInfluenceChanges is written to return;
the theorem below shows no value of this shape is ever produced. -/
structure SimulationResult where
  simulation : SimulationRecord
  impactAnalysis : List ImpactRecord
  recommendations : List String
deriving DecidableEq, Repr

/-- A JavaScript runtime error thrown by the controller: an ordinary Error or
a TypeError. -/
inductive JsError where
  | error (msg : String)
  | typeError (msg : String)
deriving DecidableEq, Repr

/-- The Promise object that an async collection method returns when it is
called without await, as every collection call in simulateInfluenceChanges
is. The field records the value the promise would eventually settle to; the
un-awaited caller can never see it - on the Promise object itself, property
access yields undefined and calling an Event method throws TypeError. -/
structure JsPromise (α : Type) where
  eventual : α
deriving DecidableEq, Repr

/-- JavaScript truthiness of a Promise object: objects are always truthy, so
a guard if (!x) on an un-awaited call result never fires. -/
def JsPromise.isTruthy {α : Type} (_ : JsPromise α) : Bool := true

/-- Calling .toObject() on a Promise object: a Promise has no such method, so
the call throws TypeError. -/
def JsPromise.callToObject {α : Type} (_ : JsPromise α) : Except JsError Event :=
  .error (.typeError "event.toObject is not a function")

/-- simulateInfluenceChanges (src/controllers/influenceSpreader.js), embedded
with the source's actual call discipline: the function is not async and never
awaits eventCollection.getEvent, calculateEventInfluence or getAllEvents, so
each of those locals holds a pending Promise object, not a settled value.
Line by line: event receives the Promise returned by getEvent; the not-found
guard if (!event) tests that Promise, which is truthy, so the guard never
fires; originalInfluence receives another pending Promise; and the spread
expression building tempEvent calls event.toObject(), a method a Promise does
not have, throwing TypeError before any influence arithmetic or
percentage-change computation is reached. Everything after that statement
(the temporary collection, newInfluence, the impactAnalysis loop and the
percentage fields whose intended shape SimulationResult records) is
unreachable; the first statement of that unreachable code would itself throw,
calling .forEach on the Promise returned by getAllEvents. -/
def simulateInfluenceChanges (db : List Event) (eventId : Nat)
    (affectedEvents : List Nat) : Except JsError SimulationResult :=
  let event : JsPromise (Option Event) := ⟨getEvent db eventId⟩
  if !event.isTruthy then .error (.error "Event not found")
  else
    let originalInfluence : JsPromise (Except String InfluenceResult) :=
      ⟨calculateEventInfluence db eventId 3⟩
    match event.callToObject with
    | .error e => .error e
    | .ok _ =>
      .error (.typeError "eventCollection.getAllEvents(...).forEach is not a function")

end Chronologicon

namespace Chronologicon

/- Helper lemmas. -/

theorem map_orderedInsert {α β : Type} (r : α → α → Prop) [DecidableRel r]
    (r2 : β → β → Prop) [DecidableRel r2] (f : α → β)
    (hf : ∀ a b, r a b ↔ r2 (f a) (f b)) (a : α) (l : List α) :
    (List.orderedInsert r a l).map f = List.orderedInsert r2 (f a) (l.map f) := by
  induction l with
  | nil => rfl
  | cons b t ih =>
    simp only [List.orderedInsert, List.map]
    by_cases h : r a b
    · rw [if_pos h, if_pos ((hf a b).mp h)]
      rfl
    · rw [if_neg h, if_neg (fun hc => h ((hf a b).mpr hc)), List.map]
      rw [ih]

theorem map_insertionSort {α β : Type} (r : α → α → Prop) [DecidableRel r]
    (r2 : β → β → Prop) [DecidableRel r2] (f : α → β)
    (hf : ∀ a b, r a b ↔ r2 (f a) (f b)) (l : List α) :
    (List.insertionSort r l).map f = List.insertionSort r2 (l.map f) := by
  induction l with
  | nil => rfl
  | cons a t ih =>
    simp only [List.insertionSort, List.map]
    rw [map_orderedInsert r r2 f hf, ih]

theorem assignGapIds_map_snd (seed : Nat) (l : List RawGap) :
    (assignGapIds seed l).map Prod.snd = l := by
  simp only [assignGapIds, List.map_map]
  have : (Prod.snd ∘ fun p : Nat × RawGap => (seed + p.1, p.2)) =
      (Prod.snd : Nat × RawGap → RawGap) := rfl
  rw [this, List.enum_map_snd]

theorem severityMs_eq_severity (ms : Int) :
    severityMs ms = severity ((ms : ℚ) / 60000) := by
  have h30 : ((ms : ℚ) / 60000 < 30) ↔ (ms < 1800000) := by
    rw [div_lt_iff₀ (by norm_num : (0:ℚ) < 60000)]
    norm_num
    exact_mod_cast Iff.rfl
  have h120 : ((ms : ℚ) / 60000 < 120) ↔ (ms < 7200000) := by
    rw [div_lt_iff₀ (by norm_num : (0:ℚ) < 60000)]
    norm_num
    exact_mod_cast Iff.rfl
  have h480 : ((ms : ℚ) / 60000 < 480) ↔ (ms < 28800000) := by
    rw [div_lt_iff₀ (by norm_num : (0:ℚ) < 60000)]
    norm_num
    exact_mod_cast Iff.rfl
  simp only [severityMs, severity]
  by_cases c1 : ms < 1800000
  · rw [if_pos c1, if_pos (h30.mpr c1)]
  · rw [if_neg c1, if_neg (fun hc => c1 (h30.mp hc))]
    by_cases c2 : ms < 7200000
    · rw [if_pos c2, if_pos (h120.mpr c2)]
    · rw [if_neg c2, if_neg (fun hc => c2 (h120.mp hc))]
      by_cases c3 : ms < 28800000
      · rw [if_pos c3, if_pos (h480.mpr c3)]
      · rw [if_neg c3, if_neg (fun hc => c3 (h480.mp hc))]

theorem mem_pairsUpper {α : Type} {p : α × α} :
    ∀ {l : List α}, p ∈ pairsUpper l → p.1 ∈ l ∧ p.2 ∈ l := by
  intro l
  induction l with
  | nil => simp [pairsUpper]
  | cons x xs ih =>
    intro hp
    simp only [pairsUpper, List.mem_append, List.mem_map] at hp
    rcases hp with ⟨y, hy, hxy⟩ | hp
    · subst hxy
      exact ⟨List.mem_cons_self x xs, List.mem_cons_of_mem x hy⟩
    · exact ⟨List.mem_cons_of_mem x (ih hp).1, List.mem_cons_of_mem x (ih hp).2⟩

theorem unorderedIds_eq {a b c d : Nat} (h : unorderedIds a b = unorderedIds c d) :
    (a = c ∧ b = d) ∨ (a = d ∧ b = c) := by
  unfold unorderedIds at h
  split_ifs at h <;> simp only [Prod.mk.injEq] at h <;> tauto

theorem pairsUpper_ids {α : Type} (f : α → Nat) :
    ∀ (l : List α), (l.map f).Nodup →
      ((pairsUpper l).map (fun p => unorderedIds (f p.1) (f p.2))).Nodup ∧
      ∀ p ∈ pairsUpper l, f p.1 ≠ f p.2 := by
  intro l
  induction l with
  | nil => simp [pairsUpper]
  | cons x xs ih =>
    intro h
    simp only [List.map_cons, List.nodup_cons] at h
    obtain ⟨hx, hxs⟩ := h
    obtain ⟨ihn, ihp⟩ := ih hxs
    constructor
    · simp only [pairsUpper, List.map_append, List.nodup_append]
      refine ⟨?_, ihn, ?_⟩
      · have hcomp : (xs.map (fun y => (x, y))).map
            (fun p : α × α => unorderedIds (f p.1) (f p.2)) =
            (xs.map f).map (fun z => unorderedIds (f x) z) := by
          simp [List.map_map]
        rw [hcomp]
        refine hxs.map_on ?_
        intro z1 _ z2 _ hz
        rcases unorderedIds_eq hz with ⟨_, h2⟩ | ⟨h1, h2⟩
        · exact h2
        · rw [← h1, h2]
      · rw [List.disjoint_left]
        intro a ha hb
        simp only [List.mem_map, List.mem_map] at ha hb
        obtain ⟨p1, hp1, he1⟩ := ha
        obtain ⟨p2, hp2, he2⟩ := hb
        obtain ⟨y, hy, hxy⟩ := hp1
        subst hxy
        have hmem := mem_pairsUpper hp2
        have : f x = f p2.1 ∨ f x = f p2.2 := by
          rw [← he2] at he1
          rcases unorderedIds_eq he1 with ⟨h1, _⟩ | ⟨h1, _⟩
          · exact Or.inl h1
          · exact Or.inr h1
        rcases this with h1 | h1
        · exact hx (h1 ▸ List.mem_map_of_mem f hmem.1)
        · exact hx (h1 ▸ List.mem_map_of_mem f hmem.2)
    · intro p hp
      simp only [pairsUpper, List.mem_append, List.mem_map] at hp
      rcases hp with ⟨y, hy, hxy⟩ | hp
      · subst hxy
        intro hcontra
        exact hx (hcontra ▸ List.mem_map_of_mem f hy)
      · exact ihp p hp

/- Claim theorems. -/

/-- C4: the severity classification of a gap of g minutes (g nonnegative) is
low exactly on [0, 30), medium exactly on [30, 120), high exactly on
[120, 480) and critical exactly on [480, infinity). -/
theorem severity_thresholds (g : ℚ) (hg : 0 ≤ g) :
    (severity g = .low ↔ 0 ≤ g ∧ g < 30) ∧
    (severity g = .medium ↔ 30 ≤ g ∧ g < 120) ∧
    (severity g = .high ↔ 120 ≤ g ∧ g < 480) ∧
    (severity g = .critical ↔ 480 ≤ g) := by
  unfold severity
  split_ifs with h1 h2 h3 <;> simp <;> try push_neg
  all_goals and_intros <;> intros <;> linarith

/-- Witness for C4: the severity theorem applied at the boundary value of
exactly 30 minutes, which is classified medium. -/
theorem severity_thresholds_witness :
    0 ≤ (30 : ℚ) ∧ (severity 30 = .medium ↔ 30 ≤ (30:ℚ) ∧ (30:ℚ) < 120) :=
  ⟨by norm_num, (severity_thresholds 30 (by norm_num)).2.1⟩

/-- C1 (evaluation at the failing input): on a snapshot with the single
one-hour event evSolo and minGapMinutes = -120 (a caller-supplied query
parameter), findTemporalGaps returns exactly one gap, and its beforeEvent and
afterEvent are the same event, because the query self-joins on event_id and
the assembly loop fetches afterEvent by before_event_id. -/
theorem findTemporalGaps_before_eq_after :
    (findTemporalGaps 0 [evSolo] (-120)).map (fun g => (g.beforeEvent, g.afterEvent)) =
      [(some evSolo, some evSolo)] := by decide

/-- C7 (evaluation at the failing input): the pair evGapA, evGapB is
chronologically adjacent with a true one-hour gap (evGapA ends strictly before
evGapB starts), yet findTemporalGaps with the default minGapMinutes = 0
emits no gap at all, because the self-join on event_id only ever compares an
event with itself. -/
theorem findTemporalGaps_misses_true_gap :
    evGapA.endDate < evGapB.startDate ∧
      findTemporalGaps 0 [evGapA, evGapB] 0 = [] := by decide

/-- Counterexample for C3: two successive calls of findTemporalGaps on the
unchanged snapshot [evSolo] with minGapMinutes = -120 (the second call drawing
the next fresh uuid from the supply) do not return identical results: the
gapId identifiers differ. -/
theorem findTemporalGaps_not_idempotent :
    findTemporalGaps 0 [evSolo] (-120) ≠ findTemporalGaps 1 [evSolo] (-120) := by decide

/-- C3 as amended: apart from the freshly generated gapId identifiers, two
calls of findTemporalGaps on an unchanged snapshot agree field for field -
the results erased of their gapId fields are identical lists. -/
theorem findTemporalGaps_deterministic_up_to_gapId (s1 s2 : Nat)
    (db : List Event) (m : Int) :
    (findTemporalGaps s1 db m).map Gap.view =
      (findTemporalGaps s2 db m).map Gap.view := by
  have key : ∀ s : Nat, (findTemporalGaps s db m).map Gap.view =
      (sortRawDesc (rawGapRows db m)).map (renderGapView db) := by
    intro s
    have hsnd : List.map Prod.snd (List.insertionSort
        (fun a b : Nat × RawGap => b.2.diffMs ≤ a.2.diffMs)
        (assignGapIds s (rawGapRows db m))) =
        List.insertionSort (fun a b : RawGap => b.diffMs ≤ a.diffMs)
          (rawGapRows db m) := by
      rw [map_insertionSort (fun a b : Nat × RawGap => b.2.diffMs ≤ a.2.diffMs)
        (fun a b : RawGap => b.diffMs ≤ a.diffMs) Prod.snd (fun _ _ => Iff.rfl),
        assignGapIds_map_snd]
    simp only [findTemporalGaps, sortGapRowsDesc, sortRawDesc, List.map_map]
    rw [← hsnd, List.map_map]
    rfl
  rw [key s1, key s2]

/-- Counterexample for C6: the event evStraddle (09:00 to 10:30) partially
intersects the window from 10:00 to 12:00 (its start is before the window end
and its end is after the window start), yet the in-window filter of the
temporal-gaps route excludes it, because that filter requires full
containment. -/
theorem gapWindowFilter_excludes_straddling :
    evStraddle.startDate < 43200000 ∧ 36000000 < evStraddle.endDate ∧
      gapWindowFilter [evStraddle] 36000000 43200000 = [] := by decide

/-- C6 as amended: the set of in-window events considered by the bounded
temporal-gaps route is exactly the set of events fully contained in the
window: those with eventStart at or after the window start and eventEnd at or
before the window end. -/
theorem gapWindowFilter_is_containment (events : List Event)
    (ws we : Int) (ev : Event) :
    ev ∈ gapWindowFilter events ws we ↔
      ev ∈ events ∧ ws ≤ ev.startDate ∧ ev.endDate ≤ we := by
  simp [gapWindowFilter, List.mem_filter, and_assoc]

/-- C10: for every window and snapshot with distinct event identifiers (the
primary key), the overlapping-events analysis never pairs an event with
itself, every reported pair strictly overlaps, and each unordered pair of
distinct events is reported at most once. -/
theorem overlappingEvents_pairs_distinct (events : List Event) (ws we : Int)
    (hnodup : (events.map Event.eventId).Nodup) :
    (∀ p ∈ overlappingEvents events ws we,
        p.event1.eventId ≠ p.event2.eventId ∧
        p.event1.startDate < p.event2.endDate ∧
        p.event2.startDate < p.event1.endDate) ∧
    ((overlappingEvents events ws we).map
        (fun p => unorderedIds p.event1.eventId p.event2.eventId)).Nodup := by
  set filtered := events.filter (fun ev =>
    decide (ev.startDate < we) && decide (ev.endDate > ws)) with hfil
  have hfn : (filtered.map Event.eventId).Nodup :=
    hnodup.sublist ((List.filter_sublist events).map Event.eventId)
  obtain ⟨hids, hne⟩ := pairsUpper_ids Event.eventId filtered hfn
  constructor
  · intro p hp
    simp only [overlappingEvents, List.mem_map, List.mem_filter, ← hfil] at hp
    obtain ⟨pr, ⟨hpr, hov⟩, hmk⟩ := hp
    simp only [eventsOverlap, Bool.and_eq_true, decide_eq_true_eq] at hov
    subst hmk
    exact ⟨hne pr hpr, hov.1, hov.2⟩
  · have hcomp : (overlappingEvents events ws we).map
        (fun p => unorderedIds p.event1.eventId p.event2.eventId) =
        ((pairsUpper filtered).filter (fun p => eventsOverlap p.1 p.2)).map
          (fun pr => unorderedIds (pr.1.eventId) (pr.2.eventId)) := by
      simp [overlappingEvents, List.map_map, ← hfil]
    rw [hcomp]
    exact hids.sublist
      ((List.filter_sublist (pairsUpper filtered)).map _)

/-- Witness for C10: the overlapping-events theorem applied to a concrete
two-event snapshot whose events overlap for fifty minutes. -/
theorem overlappingEvents_pairs_distinct_witness :
    (([⟨1, "A", 0, 6000000, none⟩, ⟨2, "B", 3000000, 9000000, none⟩] :
        List Event).map Event.eventId).Nodup ∧
    ((∀ p ∈ overlappingEvents
          [⟨1, "A", 0, 6000000, none⟩, ⟨2, "B", 3000000, 9000000, none⟩] 0 10000000,
        p.event1.eventId ≠ p.event2.eventId ∧
        p.event1.startDate < p.event2.endDate ∧
        p.event2.startDate < p.event1.endDate) ∧
      ((overlappingEvents
          [⟨1, "A", 0, 6000000, none⟩, ⟨2, "B", 3000000, 9000000, none⟩] 0 10000000).map
        (fun p => unorderedIds p.event1.eventId p.event2.eventId)).Nodup) :=
  ⟨by decide, overlappingEvents_pairs_distinct _ 0 10000000 (by decide)⟩

/-- C5: on the four-event snapshot E1 from 09:00 to 10:00, E2 from 10:00 to
11:00, E3 from 11:30 to 12:00 and E4 from 09:00 to 09:30, the precedence
shortest-path operation from E1 to E3 returns exactly the two-event path
E1, E3 (E1 ends at 10:00, at or before the 11:30 start of E3), with
totalDurationMinutes 90, the sum of the per-event durations 60 and 30, and
not any longer path through E2. -/
theorem shortestPrecedencePath_example :
    shortestPrecedencePath pathExample 1 3 =
      some ([⟨1, "E1", 32400000, 36000000, 60⟩,
             ⟨3, "E3", 41400000, 43200000, 30⟩], 90) := by decide

theorem length_filter_le_of_imp {α : Type} (p q : α → Bool)
    (h : ∀ a, q a = true → p a = true) :
    ∀ l : List α, (l.filter q).length ≤ (l.filter p).length := by
  intro l
  induction l with
  | nil => simp
  | cons x xs ih =>
    simp only [List.filter_cons]
    by_cases hq : q x = true
    · rw [if_pos hq, if_pos (h x hq)]
      simpa using ih
    · rw [if_neg hq]
      by_cases hp : p x = true
      · rw [if_pos hp]
        simp only [List.length_cons]
        omega
      · rw [if_neg hp]
        exact ih

theorem length_filter_lt_of_mem {α : Type} (p q : α → Bool)
    (h : ∀ a, q a = true → p a = true) {a : α} :
    ∀ l : List α, a ∈ l → p a = true → q a = false →
      (l.filter q).length < (l.filter p).length := by
  intro l
  induction l with
  | nil => simp
  | cons x xs ih =>
    intro hmem hp hq
    simp only [List.filter_cons]
    rcases List.mem_cons.mp hmem with rfl | hmem2
    · rw [if_neg (by simp [hq]), if_pos hp]
      simp only [List.length_cons]
      have := length_filter_le_of_imp p q h xs
      omega
    · by_cases hqx : q x = true
      · rw [if_pos hqx, if_pos (h x hqx)]
        simp only [List.length_cons]
        have := ih hmem2 hp hq
        omega
      · rw [if_neg hqx]
        by_cases hpx : p x = true
        · rw [if_pos hpx]
          simp only [List.length_cons]
          have := ih hmem2 hp hq
          omega
        · rw [if_neg hpx]
          exact ih hmem2 hp hq

theorem unvisitedCount_append_le (db : List Event) (visited : List Nat) (id : Nat) :
    unvisitedCount db (visited ++ [id]) ≤ unvisitedCount db visited := by
  unfold unvisitedCount
  apply length_filter_le_of_imp
  intro a ha
  simp only [decide_eq_true_eq] at ha ⊢
  intro hmem
  exact ha (List.mem_append_left _ hmem)

theorem unvisitedCount_append_lt (db : List Event) (visited : List Nat)
    (id : Nat) (hid : id ∈ db.map Event.eventId) (hnv : id ∉ visited) :
    unvisitedCount db (visited ++ [id]) < unvisitedCount db visited := by
  unfold unvisitedCount
  apply length_filter_lt_of_mem _ _ ?_ _ (List.mem_dedup.mpr hid) ?_ ?_
  · intro a ha
    simp only [decide_eq_true_eq] at ha ⊢
    intro hmem
    exact ha (List.mem_append_left _ hmem)
  · simpa using hnv
  · simp

theorem getChildEvents_length_le (db : List Event) (pid : Nat) :
    (getChildEvents db pid).length ≤ db.length := by
  unfold getChildEvents
  rw [(List.perm_insertionSort _ _).length_eq]
  exact List.length_filter_le _ _

theorem hierChildQueue_length_le (db : List Event) (id : Nat)
    (cur : List HPathEvent) (rest : List HQEntry) (visited2 : List Nat) :
    (hierChildQueue db id cur rest visited2).length ≤
      rest.length + db.length := by
  unfold hierChildQueue
  simp only [List.length_append, List.length_map]
  have hf := List.length_filter_le (fun c => decide (c.eventId ∉ visited2))
    (getChildEvents db id)
  have hc := getChildEvents_length_le db id
  omega

theorem hierPush_length_le (db : List Event) (id : Nat) (pId : Option Nat)
    (cur : List HPathEvent) (rest : List HQEntry) (visited2 : List Nat) :
    (hierPush db id pId cur rest visited2).length ≤
      rest.length + db.length + 1 := by
  have h1 := hierChildQueue_length_le db id cur rest visited2
  unfold hierPush
  cases pId with
  | none =>
    dsimp only
    exact Nat.le_succ_of_le h1
  | some pid =>
    dsimp only
    cases getEvent db pid with
    | none =>
      dsimp only
      exact Nat.le_succ_of_le h1
    | some par =>
      dsimp only
      by_cases hv : par.eventId ∈ visited2
      · rw [if_pos hv]
        exact Nat.le_succ_of_le h1
      · rw [if_neg hv]
        simp only [List.length_append, List.length_singleton]
        omega

theorem bfsHier_enough_fuel (db : List Event) (tgt : Nat) :
    ∀ fuel q visited, hierMeasure db q visited < fuel →
      (bfsHier db tgt fuel q visited).isSome = true := by
  intro fuel
  induction fuel with
  | zero =>
    intro q visited h
    exact absurd h (Nat.not_lt_zero _)
  | succ f ih =>
    intro q visited h
    cases q with
    | nil => rfl
    | cons entry rest =>
      simp only [bfsHier]
      by_cases hv : entry.eventId ∈ visited
      · rw [if_pos hv]
        apply ih
        unfold hierMeasure at h ⊢
        simp only [List.length_cons] at h
        omega
      · rw [if_neg hv]
        cases hev : getEvent db entry.eventId with
        | none =>
          dsimp only
          apply ih
          have hle := unvisitedCount_append_le db visited entry.eventId
          have hmul := Nat.mul_le_mul_right (db.length + 2) hle
          unfold hierMeasure at h ⊢
          simp only [List.length_cons] at h
          omega
        | some ev =>
          dsimp only
          by_cases ht : entry.eventId = tgt
          · rw [if_pos ht]
            rfl
          · rw [if_neg ht]
            apply ih
            have hid : entry.eventId ∈ db.map Event.eventId := by
              have hm := List.mem_of_find?_eq_some hev
              have hp := List.find?_some hev
              simp only [beq_iff_eq] at hp
              exact hp ▸ List.mem_map_of_mem Event.eventId hm
            have hlt := unvisitedCount_append_lt db visited entry.eventId hid hv
            have hpl := hierPush_length_le db entry.eventId ev.parentId
              (entry.path ++ [renderHPathEvent ev]) rest
              (visited ++ [entry.eventId])
            have hmul := Nat.mul_le_mul_right (db.length + 2) hlt
            rw [Nat.succ_mul] at hmul
            unfold hierMeasure at h ⊢
            simp only [List.length_cons] at h
            omega

theorem event_id_inj {db : List Event} (hnodup : (db.map Event.eventId).Nodup)
    {a b : Event} (ha : a ∈ db) (hb : b ∈ db) (h : a.eventId = b.eventId) :
    a = b :=
  List.inj_on_of_nodup_map hnodup ha hb h

theorem mem_cteLevel_zero {db : List Event} {src maxD : Nat} {r : CteRow} :
    r ∈ cteLevel db src maxD 0 ↔
      ∃ e ∈ db, e.eventId = src ∧ r = ⟨e, 0, [src]⟩ := by
  simp only [cteLevel, List.mem_map, List.mem_filter, beq_iff_eq]
  constructor
  · rintro ⟨e, ⟨he, hid⟩, hre⟩
    exact ⟨e, he, hid, by rw [← hre, hid]⟩
  · rintro ⟨e, he, hid, hre⟩
    exact ⟨e, ⟨he, hid⟩, by rw [hre, hid]⟩

theorem mem_cteStep {db : List Event} {maxD : Nat} {eh : CteRow} {r : CteRow} :
    r ∈ (if eh.depth < maxD then
        (db.filter (cteJoin db eh)).map
          (fun e => (⟨e, eh.depth + 1, eh.path ++ [e.eventId]⟩ : CteRow))
      else []) ↔
      eh.depth < maxD ∧ ∃ e ∈ db, cteJoin db eh e = true ∧
        r = ⟨e, eh.depth + 1, eh.path ++ [e.eventId]⟩ := by
  by_cases hd : eh.depth < maxD
  · rw [if_pos hd]
    simp only [List.mem_map, List.mem_filter]
    constructor
    · rintro ⟨e, ⟨he, hj⟩, hre⟩
      exact ⟨hd, e, he, hj, hre.symm⟩
    · rintro ⟨_, e, he, hj, hre⟩
      exact ⟨e, ⟨he, hj⟩, hre.symm⟩
  · rw [if_neg hd]
    simp [hd]

theorem mem_cteLevel_succ {db : List Event} {src maxD k : Nat} {r : CteRow} :
    r ∈ cteLevel db src maxD (k + 1) ↔
      ∃ eh ∈ cteLevel db src maxD k, eh.depth < maxD ∧
        ∃ e ∈ db, cteJoin db eh e = true ∧
          r = ⟨e, eh.depth + 1, eh.path ++ [e.eventId]⟩ := by
  rw [show cteLevel db src maxD (k + 1) =
      (cteLevel db src maxD k).flatMap (fun eh =>
        if eh.depth < maxD then
          (db.filter (cteJoin db eh)).map
            (fun e => ⟨e, eh.depth + 1, eh.path ++ [e.eventId]⟩)
        else []) from rfl]
  simp only [List.mem_flatMap, mem_cteStep]

theorem cteJoin_parent {db : List Event} (hnodup : (db.map Event.eventId).Nodup)
    {eh : CteRow} {e : Event} (he : e ∈ db) (hj : cteJoin db eh e = true) :
    e.parentId = some eh.event.eventId ∧ e.eventId ∉ eh.path := by
  simp only [cteJoin, Bool.and_eq_true, Bool.or_eq_true, List.any_eq_true,
    beq_iff_eq, decide_eq_true_eq] at hj
  obtain ⟨hor, hpath⟩ := hj
  refine ⟨?_, hpath⟩
  rcases hor with h | ⟨e2, he2, hp2, hid2⟩
  · exact h
  · rw [← event_id_inj hnodup he2 he hid2]
    exact hp2

theorem src_mem_path {db : List Event} {src maxD : Nat} :
    ∀ k, ∀ r ∈ cteLevel db src maxD k, src ∈ r.path := by
  intro k
  induction k with
  | zero =>
    intro r hr
    obtain ⟨e, _, _, hre⟩ := mem_cteLevel_zero.mp hr
    rw [hre]
    exact List.mem_singleton_self src
  | succ k ih =>
    intro r hr
    obtain ⟨eh, heh, _, e, _, _, hre⟩ := mem_cteLevel_succ.mp hr
    rw [hre]
    exact List.mem_append_left _ (ih eh heh)

theorem cteUpTo_zero (db : List Event) (src maxD : Nat) :
    cteUpTo db src maxD 0 = cteLevel db src maxD 0 := by
  unfold cteUpTo
  simp [List.range_succ]

theorem cteUpTo_succ (db : List Event) (src maxD k : Nat) :
    cteUpTo db src maxD (k + 1) =
      cteUpTo db src maxD k ++ cteLevel db src maxD (k + 1) := by
  unfold cteUpTo
  rw [List.range_succ, List.flatMap_append]
  simp

theorem mem_cteUpTo {db : List Event} {src maxD k : Nat} {r : CteRow} :
    r ∈ cteUpTo db src maxD k ↔ ∃ j ≤ k, r ∈ cteLevel db src maxD j := by
  simp [cteUpTo, List.mem_flatMap, List.mem_range, Nat.lt_succ_iff]

theorem cteLevel_sublist_upTo (db : List Event) (src maxD k : Nat) :
    (cteLevel db src maxD k).Sublist (cteUpTo db src maxD k) := by
  cases k with
  | zero =>
    rw [cteUpTo_zero]
  | succ k =>
    rw [cteUpTo_succ]
    exact List.sublist_append_right _ _

theorem cteLevel_succ_ids_nodup {db : List Event} {src maxD : Nat}
    (hnodup : (db.map Event.eventId).Nodup) (k : Nat)
    (hlev : ((cteLevel db src maxD k).map (fun r => r.event.eventId)).Nodup) :
    ((cteLevel db src maxD (k + 1)).map (fun r => r.event.eventId)).Nodup := by
  rw [show cteLevel db src maxD (k + 1) =
      (cteLevel db src maxD k).flatMap (fun eh =>
        if eh.depth < maxD then
          (db.filter (cteJoin db eh)).map
            (fun e => ⟨e, eh.depth + 1, eh.path ++ [e.eventId]⟩)
        else []) from rfl]
  rw [List.map_flatMap, List.nodup_flatMap]
  constructor
  · intro eh _
    by_cases hd : eh.depth < maxD
    · rw [if_pos hd, List.map_map]
      exact hnodup.sublist ((List.filter_sublist db).map Event.eventId)
    · rw [if_neg hd]
      exact List.nodup_nil
  · have hpw : List.Pairwise
        (fun a b : CteRow => a.event.eventId ≠ b.event.eventId)
        (cteLevel db src maxD k) := by
      rw [List.Nodup, List.pairwise_map] at hlev
      exact hlev
    refine hpw.imp ?_
    intro eh1 eh2 hne
    rw [Function.onFun, List.disjoint_left]
    intro x hx1 hx2
    simp only [List.mem_map] at hx1 hx2
    obtain ⟨r1, hr1, hxr1⟩ := hx1
    obtain ⟨r2, hr2, hxr2⟩ := hx2
    obtain ⟨_, e1, he1, hj1, hre1⟩ := mem_cteStep.mp hr1
    obtain ⟨_, e2, he2, hj2, hre2⟩ := mem_cteStep.mp hr2
    have hid1 : e1.eventId = x := by rw [← hxr1, hre1]
    have hid2 : e2.eventId = x := by rw [← hxr2, hre2]
    have he12 : e1 = e2 := event_id_inj hnodup he1 he2 (by rw [hid1, hid2])
    have hp1 := (cteJoin_parent hnodup he1 hj1).1
    have hp2 := (cteJoin_parent hnodup he2 hj2).1
    rw [he12, hp2] at hp1
    exact hne (Option.some_injective _ hp1.symm)

theorem cteUpTo_ids_nodup (db : List Event) (src maxD : Nat)
    (hnodup : (db.map Event.eventId).Nodup) :
    ∀ k, ((cteUpTo db src maxD k).map (fun r => r.event.eventId)).Nodup := by
  intro k
  induction k with
  | zero =>
    rw [cteUpTo_zero]
    rw [show (cteLevel db src maxD 0).map (fun r => r.event.eventId) =
        (db.filter (fun e => e.eventId == src)).map Event.eventId from by
      simp only [cteLevel, List.map_map]
      rfl]
    exact hnodup.sublist ((List.filter_sublist db).map Event.eventId)
  | succ k ih =>
    rw [cteUpTo_succ, List.map_append, List.nodup_append]
    have hlevk : ((cteLevel db src maxD k).map (fun r => r.event.eventId)).Nodup :=
      ih.sublist ((cteLevel_sublist_upTo db src maxD k).map _)
    refine ⟨ih, cteLevel_succ_ids_nodup hnodup k hlevk, ?_⟩
    rw [List.disjoint_left]
    intro x hxUp hxNext
    simp only [List.mem_map] at hxUp hxNext
    obtain ⟨rNew, hrNew, hxNew⟩ := hxNext
    obtain ⟨eh, heh, _, e, he, hj, hreNew⟩ := mem_cteLevel_succ.mp hrNew
    have hxe : e.eventId = x := by rw [← hxNew, hreNew]
    have hparent := (cteJoin_parent hnodup he hj).1
    have hnotpath := (cteJoin_parent hnodup he hj).2
    obtain ⟨rOld, hrOld, hxOld⟩ := hxUp
    obtain ⟨j, hj_le, hrOldLev⟩ := mem_cteUpTo.mp hrOld
    cases j with
    | zero =>
      obtain ⟨e0, _, hid0, hre0⟩ := mem_cteLevel_zero.mp hrOldLev
      have hxsrc : x = src := by
        rw [← hxOld, hre0]
        exact hid0
      have hsrcpath : src ∈ eh.path := src_mem_path k eh heh
      rw [← hxe] at hxsrc
      rw [hxsrc] at hnotpath
      exact hnotpath hsrcpath
    | succ i =>
      obtain ⟨eh2, heh2, _, e2, he2, hj2, hre2⟩ := mem_cteLevel_succ.mp hrOldLev
      have hxe2 : e2.eventId = x := by rw [← hxOld, hre2]
      have he12 : e = e2 := event_id_inj hnodup he he2 (by rw [hxe, hxe2])
      have hparent2 := (cteJoin_parent hnodup he2 hj2).1
      rw [he12, hparent2] at hparent
      have hehids : eh.event.eventId = eh2.event.eventId :=
        Option.some_injective _ hparent.symm
      obtain ⟨k1, hk1⟩ : ∃ k1, k = k1 + 1 := by
        cases k with
        | zero => omega
        | succ k1 => exact ⟨k1, rfl⟩
      have hsplit := ih
      rw [hk1, cteUpTo_succ, List.map_append, List.nodup_append] at hsplit
      obtain ⟨_, _, hdisj⟩ := hsplit
      rw [List.disjoint_left] at hdisj
      have hmem2 : eh2.event.eventId ∈
          (cteUpTo db src maxD k1).map (fun r => r.event.eventId) := by
        refine List.mem_map_of_mem _ (mem_cteUpTo.mpr ⟨i, ?_, heh2⟩)
        omega
      have hmem1 : eh.event.eventId ∈
          (cteLevel db src maxD (k1 + 1)).map (fun r => r.event.eventId) := by
        rw [← hk1]
        exact List.mem_map_of_mem _ heh
      rw [← hehids] at hmem2
      exact hdisj hmem2 hmem1

theorem influenceEntries_aux (rows : List CteRow) :
    ∀ m : List (Nat × ℚ),
      (m.map Prod.fst ++ rows.map (fun r => r.event.eventId)).Nodup →
      rows.foldl (fun m r => mapSet m r.event.eventId ((7/10 : ℚ) ^ r.depth)) m =
        m ++ rows.map (fun r => (r.event.eventId, (7/10 : ℚ) ^ r.depth)) := by
  induction rows with
  | nil =>
    intro m _
    simp
  | cons r rs ih =>
    intro m hnd
    have hid_notin : r.event.eventId ∉ m.map Prod.fst := by
      intro hmem
      rw [List.nodup_append] at hnd
      exact hnd.2.2 hmem (by simp)
    have hset : mapSet m r.event.eventId ((7/10 : ℚ) ^ r.depth) =
        m ++ [(r.event.eventId, (7/10 : ℚ) ^ r.depth)] := by
      unfold mapSet
      rw [if_neg ?_]
      simp only [List.any_eq_true, beq_iff_eq, not_exists]
      intro p hp
      exact hid_notin (hp.2 ▸ List.mem_map_of_mem Prod.fst hp.1)
    rw [List.foldl_cons, hset, ih (m ++ [(r.event.eventId, (7/10 : ℚ) ^ r.depth)]) ?_]
    · simp
    · simp only [List.map_append, List.map_cons] at hnd ⊢
      rw [List.append_assoc]
      simpa using hnd

theorem totalInfluence_eq_sum (rows : List CteRow) :
    totalInfluence rows =
      (rows.map (fun r => (7/10 : ℚ) ^ r.depth)).sum := by
  unfold totalInfluence
  suffices h : ∀ a : ℚ, rows.foldl (fun t r => t + (7/10 : ℚ) ^ r.depth) a =
      a + (rows.map (fun r => (7/10 : ℚ) ^ r.depth)).sum by
    rw [h 0, zero_add]
  induction rows with
  | nil =>
    intro a
    simp
  | cons r rs ih =>
    intro a
    simp only [List.foldl_cons, List.map_cons, List.sum_cons, ih, add_assoc]

/-- C2: on every snapshot whose event ids are distinct (the primary key), the
influence computation assigns each reached event the score 0.7 to the power
of its depth, reaches each event through exactly one row (the parent relation
is a function, so child descent admits no duplicate paths), and its total is
the sum of the influence-map entries, each event contributing once - never a
sum over several paths. -/
theorem calculateEventInfluence_no_double_count (db : List Event)
    (src maxD : Nat) (hnodup : (db.map Event.eventId).Nodup)
    (res : InfluenceResult)
    (h : calculateEventInfluence db src maxD = .ok res) :
    ((sortCteRows (cteRows db src maxD)).map (fun r => r.event.eventId)).Nodup ∧
    res.influenceMap = (sortCteRows (cteRows db src maxD)).map
      (fun r => (r.event.eventId, (7/10 : ℚ) ^ r.depth)) ∧
    res.totalInfluence = (res.influenceMap.map Prod.snd).sum := by
  have hrowsn : ((cteRows db src maxD).map (fun r => r.event.eventId)).Nodup :=
    cteUpTo_ids_nodup db src maxD hnodup maxD
  have hperm : (sortCteRows (cteRows db src maxD)).Perm (cteRows db src maxD) :=
    List.perm_insertionSort _ _
  have hsortn : ((sortCteRows (cteRows db src maxD)).map
      (fun r => r.event.eventId)).Nodup :=
    ((hperm.map _).nodup_iff).mpr hrowsn
  have hentries : influenceEntries (sortCteRows (cteRows db src maxD)) =
      (sortCteRows (cteRows db src maxD)).map
        (fun r => (r.event.eventId, (7/10 : ℚ) ^ r.depth)) := by
    have := influenceEntries_aux (sortCteRows (cteRows db src maxD)) []
      (by simpa using hsortn)
    simpa [influenceEntries] using this
  have hfields : res.influenceMap =
        influenceEntries (sortCteRows (cteRows db src maxD)) ∧
      res.totalInfluence =
        totalInfluence (sortCteRows (cteRows db src maxD)) := by
    unfold calculateEventInfluence at h
    cases hg : getEvent db src with
    | none =>
      rw [hg] at h
      exact absurd h (by simp)
    | some ev =>
      rw [hg] at h
      dsimp only at h
      simp only [Except.ok.injEq] at h
      rw [← h]
      exact ⟨rfl, rfl⟩
  constructor
  · exact hsortn
  constructor
  · rw [hfields.1]
    exact hentries
  · rw [hfields.2, hfields.1, hentries, totalInfluence_eq_sum, List.map_map]
    rfl

/-- Evaluation of the influence computation on the concrete two-event
snapshot: the source scores 1 at depth 0 and its child 7/10 at depth 1. -/
theorem influenceExample_eval :
    calculateEventInfluence influenceExampleDb 1 3 = .ok influenceExampleResult := by
  have hrows : sortCteRows (cteRows influenceExampleDb 1 3) =
      [⟨⟨1, "A", 0, 60000, none⟩, 0, [1]⟩,
       ⟨⟨2, "B", 0, 60000, some 1⟩, 1, [1, 2]⟩] := by decide
  unfold calculateEventInfluence
  rw [show getEvent influenceExampleDb 1 = some ⟨1, "A", 0, 60000, none⟩ from rfl]
  rw [hrows]
  simp only [influenceEntries, totalInfluence, List.foldl_cons, List.foldl_nil,
    mapSet, influenceExampleResult]
  norm_num

/-- Witness for C2: the no-double-count theorem applied to the concrete
two-event snapshot, with both hypotheses discharged by evaluation. -/
theorem calculateEventInfluence_no_double_count_witness :
    ((influenceExampleDb.map Event.eventId).Nodup) ∧
    calculateEventInfluence influenceExampleDb 1 3 = .ok influenceExampleResult ∧
    (((sortCteRows (cteRows influenceExampleDb 1 3)).map
        (fun r => r.event.eventId)).Nodup ∧
      influenceExampleResult.influenceMap =
        (sortCteRows (cteRows influenceExampleDb 1 3)).map
          (fun r => (r.event.eventId, (7/10 : ℚ) ^ r.depth)) ∧
      influenceExampleResult.totalInfluence =
        (influenceExampleResult.influenceMap.map Prod.snd).sum) :=
  ⟨by decide, influenceExample_eval,
    calculateEventInfluence_no_double_count influenceExampleDb 1 3 (by decide)
      influenceExampleResult influenceExample_eval⟩

/-- C8 (evaluation of the failing behavior): for every collection, simulated
event and affected-event list, the influence simulation never produces a
result at all - it throws TypeError on every invocation, because its async
collection calls are never awaited: the not-found guard tests a truthy
Promise and the spread of event.toObject() calls a method a Promise does not
have. The percentage-change reporting the claim describes (a special-cased
undefined for zero baselines, never NaN or Infinity) is therefore never
executed, and on the un-awaited undefined totals its unconditional division
would produce NaN. -/
theorem simulateInfluenceChanges_always_throws (db : List Event)
    (eventId : Nat) (affectedEvents : List Nat) :
    simulateInfluenceChanges db eventId affectedEvents =
      .error (.typeError "event.toObject is not a function") := rfl


/-- C9: the hierarchy-path BFS of the influence-spreader route terminates on
every finite snapshot - including snapshots whose parent and child links form
a cycle - because every iteration either shrinks the queue or visits a fresh
snapshot id; for every source and target it returns a result (a path, or the
empty list when no path exists) within the computed fuel bound. -/
theorem findShortestPathHier_terminates (db : List Event) (src tgt : Nat) :
    ∃ res, findShortestPathHier db src tgt = some res := by
  have h := bfsHier_enough_fuel db tgt
    (hierMeasure db [⟨src, []⟩] [] + 1) [⟨src, []⟩] [] (Nat.lt_succ_self _)
  unfold findShortestPathHier
  cases hres : bfsHier db tgt
      (hierMeasure db [⟨src, []⟩] [] + 1) [⟨src, []⟩] [] with
  | none =>
    rw [hres] at h
    exact absurd h (by simp)
  | some r => exact ⟨r, rfl⟩

end Chronologicon
